import Mathlib

/-!
Shallow embedding of the botogram dispatch core (`botogram/bot.py`,
`botogram/hooks.py`, `botogram/payments.py`) and proofs about it.

Conventions used throughout:
* Python `None`/`True`/`False` return values are modelled as
  `Option Bool` (`none`, `some true`, `some false`).
* Python strings are Lean `String`s; most string processing is done on
  `String.data` (`List Char`) so that every definition is structurally
  recursive and kernel-evaluable.
* Handler functions are abstract; an invocation is recorded as an event
  (or as the argument list it was invoked with) rather than executed.
-/

namespace Botogram

/-! ## Hook chains (`bot.py` `Bot.process`, `payments.py`
`process_shipping_query` / `process_pre_checkout_query`)

All three loops have the same shape: walk the chain in order, call each
hook, and `return` as soon as a call returns Python `True`. -/

/-- The observable behavior of one registered hook on one update: the
Python return value of `hook(...)` / `hook.call(bot, update)`. -/
def HookFn (U : Type) : Type := U → Option Bool

/-- Index (exclusive) at which the dispatch loop stops: one past the
first hook whose call returns `True`, or the chain length if no hook
claims the update. Embeds the `if result is True: return` early exit of
`Bot.process` and `process_shipping_query`/`process_pre_checkout_query`. -/
def chainStop {U : Type} : List (HookFn U) → U → Nat
  | [], _ => 0
  | h :: rest, u => if h u = some true then 1 else 1 + chainStop rest u

/-- Indices of the hooks actually invoked by the dispatch loop, in the
order they are invoked, starting from index `i`. -/
def chainInvokedAux {U : Type} (i : Nat) : List (HookFn U) → U → List Nat
  | [], _ => []
  | h :: rest, u =>
    i :: (if h u = some true then [] else chainInvokedAux (i + 1) rest u)

/-- Indices of the hooks invoked for one update, in invocation order. -/
def chainInvoked {U : Type} (hooks : List (HookFn U)) (u : U) : List Nat :=
  chainInvokedAux 0 hooks u

/-! ## Python string primitives used by the dispatch code -/

/-- Characters of the regex class `[a-zA-Z0-9_]`. -/
def isWordChar (c : Char) : Bool :=
  ('a' ≤ c && c ≤ 'z') || ('A' ≤ c && c ≤ 'Z') || ('0' ≤ c && c ≤ '9') || c = '_'

/-- Split a character list at every single character satisfying `p`,
keeping empty pieces — the semantics of Python `str.split(sep)` for a
one-character `sep` (and, with a whitespace predicate, the building
block for whitespace splitting). `acc` holds the reversed current piece. -/
def splitByAux (p : Char → Bool) : List Char → List Char → List String
  | [], acc => [String.mk acc.reverse]
  | c :: cs, acc =>
    if p c then String.mk acc.reverse :: splitByAux p cs []
    else splitByAux p cs (c :: acc)

/-- Python `text.split(" ")`: split at every single space character,
keeping empty pieces (`"a  b".split(" ") == ["a", "", "b"]`). Used by
`Bot._process_commands` and `MessageContainsHook._call`. -/
def pySplitSpace (s : String) : List String :=
  splitByAux (fun c => c = ' ') s.data []

/-- Drop the empty pieces of a piece list except the final one.
Splitting at every single space turns a run of `k` spaces into `k - 1`
empty interior pieces; a regex split on `' +'` treats the whole run as
one separator, so exactly those interior empties disappear, while the
piece after the final separator (possibly empty, at the end of the
list) survives. -/
def dropInteriorEmpties : List String → List String
  | [] => []
  | [x] => [x]
  | x :: xs => if x = "" then dropInteriorEmpties xs else x :: dropInteriorEmpties xs

/-- Python `re.split(r' +', s)` (the `_command_args_split_re` of
`hooks.py`): split on maximal runs of spaces, keeping an empty leading
piece when `s` starts with a space and an empty trailing piece when it
ends with one. -/
def splitSpaceRuns (s : String) : List String :=
  match pySplitSpace s with
  | [] => [s]
  | x :: xs => x :: dropInteriorEmpties xs

/-- The character substitution performed by
`text.replace("\n", " ").replace("\t", " ")`. -/
def cmdNormChar (c : Char) : Char :=
  if c = '\n' || c = '\t' then ' ' else c

/-- `text.replace("\n", " ").replace("\t", " ")` from
`CommandHook._call`: both replacements substitute a single character by
a single character, so their composition is a character map. -/
def normalizeCmdText (s : String) : String :=
  String.mk (s.data.map cmdNormChar)

/-- Python `str.lower()`, restricted to ASCII (the only case the
command/message machinery distinguishes). -/
def pyLower (s : String) : String :=
  String.mk (s.data.map (fun c =>
    if 'A' ≤ c && c ≤ 'Z' then Char.ofNat (c.toNat + 32) else c))

/-- Remove one trailing newline, if present. Python's `$` anchor (no
`re.MULTILINE`) matches at the end of the string *or just before a
newline at the end of the string*; since none of the patterns involved
can consume a `'\n'`, matching a pattern ending in `$` against `s` is
equivalent to matching it with a hard end anchor against
`stripFinalNewline s`. -/
def stripFinalNewline (l : List Char) : List Char :=
  if l.getLast? = some '\n' then l.dropLast else l

/-- Python `re.match(r'^[a-zA-Z0-9_]+$', s)` as a Boolean: one or more
word characters, with `$` also accepting a single trailing newline. -/
def pyFullMatchWord (s : String) : Bool :=
  !(stripFinalNewline s.data).isEmpty && (stripFinalNewline s.data).all isWordChar

/-- The pattern `^[a-zA-Z0-9_]+$` read as a pure full-string regex (the
spec's notation): the whole string is one or more word characters.
Stated from the spec's words, for comparison with `pyFullMatchWord`. -/
def specFullMatchWord (s : String) : Bool :=
  !s.data.isEmpty && s.data.all isWordChar

/-- Python `"\n".join(pieces)`. -/
def joinWithNl : List String → String
  | [] => ""
  | [x] => x
  | x :: xs => x ++ "\n" ++ joinWithNl xs

/-! ## `CommandHook` (`hooks.py`) -/

/-- Matching of `CommandHook._regex`, the compiled pattern
`^\/NAME(@[a-zA-Z0-9_]+)?( .*)?$` (built in `CommandHook._after_init`
from a validated, metacharacter-free `NAME`), against the already
normalized text, returning group 1 on success. The text contains no
newline (every `'\n'` was replaced by a space in `CommandHook._call`),
so Python's `$`-before-final-newline rule and the fact that `.` does
not match `'\n'` are both vacuous here. Backtracking cannot help this
pattern: group 1 must take the maximal word-character run after `'@'`
(anything shorter leaves a word character that neither `( .*)?` nor `$`
can consume), so the match is deterministic. -/
def cmdRegexMatch (name : List Char) (text : List Char) : Option (Option (List Char)) :=
  if text.take (name.length + 1) = '/' :: name then
    match text.drop (name.length + 1) with
    | [] => some none
    | c :: r2 =>
      if c = '@' then
        if (r2.takeWhile isWordChar).isEmpty then none
        else
          match r2.drop (r2.takeWhile isWordChar).length with
          | [] => some (some ('@' :: r2.takeWhile isWordChar))
          | c2 :: _ =>
            if c2 = ' ' then some (some ('@' :: r2.takeWhile isWordChar)) else none
      else if c = ' ' then some none
      else none
  else none

/-- Result of one `Hook.call`: the argument lists of the handler
invocations it performed (in order), and its Python return value. -/
structure HookCallResult where
  invocations : List (List String)
  retval : Option Bool
  deriving DecidableEq

/-- `CommandHook._call` (plus the `_only_texts` gate of `Hook.call`):
normalize tabs/newlines to spaces, match the command regex, refuse a
mention of another bot, otherwise invoke the handler once with the
space-run-split argument list and return `True`. -/
def commandHookCall (name username : String) (text : Option String) : HookCallResult :=
  match text with
  | none => ⟨[], none⟩
  | some t0 =>
    let t := normalizeCmdText t0
    match cmdRegexMatch name.data t.data with
    | none => ⟨[], none⟩
    | some g1 =>
      match g1 with
      | some m =>
        if String.mk m ≠ "@" ++ username then ⟨[], none⟩
        else ⟨[(splitSpaceRuns t).drop 1], some true⟩
      | none => ⟨[(splitSpaceRuns t).drop 1], some true⟩

/-! ## `Bot._process_commands` (`bot.py`) -/

/-- Matching of `Bot._commands_re`, the compiled pattern
`^\/([a-zA-Z0-9_]+)(@USERNAME)?( .*)?$` (with `USERNAME` the bot's own
username, word characters only), against the raw message text,
returning group 1 (the command) on success. Python `$` also accepts a
single trailing newline, handled by `stripFinalNewline`; `.` does not
match `'\n'`, so after the strip the tail taken by `( .*)` must be
newline-free. Group 1 must take the maximal word run (no later pattern
part can consume a word character), so the match is deterministic. -/
def botCommandsReMatch (username : List Char) (text0 : List Char) : Option (List Char) :=
  let text := stripFinalNewline text0
  match text with
  | '/' :: rest =>
    let cmd := rest.takeWhile isWordChar
    if cmd.isEmpty then none
    else
      match rest.drop cmd.length with
      | [] => some cmd
      | ' ' :: tl => if ('\n' : Char) ∈ tl then none else some cmd
      | '@' :: r3 =>
        if r3.take username.length = username then
          match r3.drop username.length with
          | [] => some cmd
          | ' ' :: tl => if ('\n' : Char) ∈ tl then none else some cmd
          | _ => none
        else none
      | _ => none
  | _ => none

/-- One observable action of `Bot._process_commands`. -/
inductive ProcEvent where
  | handlerInvoked (cmd : String) (args : List String)
  | sent (text : String)
  deriving DecidableEq

/-- The command names visible to `Bot._process_commands`'s
`command in commands` test: the merge of `Bot._default_commands`
(`help`, `start`) with the user-registered commands (`_get_commands`;
user entries override defaults, which leaves the key set as below). -/
def getCommandNames (userCmds : List String) : List String :=
  "help" :: "start" :: userCmds

/-- `Bot._process_commands`: the processor hook that routes commands.
Returns the performed actions and the Python return value (`True` when
a command handler ran, `None` otherwise — including the
unknown-command-notice path, which has no `return True`). -/
def processCommands (username : String) (userCmds : List String)
    (messageText : Option String) (chatIsUser : Bool) : List ProcEvent × Option Bool :=
  match messageText with
  | none => ([], none)
  | some text =>
    match botCommandsReMatch username.data text.data with
    | none => ([], none)
    | some cmdL =>
      let command := String.mk cmdL
      let splitted := pySplitSpace text
      let args := splitted.drop 1
      let mentioned := splitted.headD "" = "/" ++ command ++ "@" ++ username
      if command ∈ getCommandNames userCmds then
        ([.handlerInvoked command args], some true)
      else if chatIsUser || mentioned then
        ([.sent ("Unknow command /" ++ command ++ ".\n" ++
          "Use /help for a list of commands.")], none)
      else ([], none)

/-! ## `MessageContainsHook` (`hooks.py`) -/

/-- The `for one in splitted` loop of `MessageContainsHook._call`: one
handler invocation per piece equal to the target, stopping after the
first invocation unless `multiple` is set. Returns the number of
invocations (`len(res)`). -/
def containsLoopCount (pieces : List String) (target : String) (mult : Bool) : Nat :=
  match pieces with
  | [] => 0
  | p :: ps =>
    if p = target then
      (if mult then 1 + containsLoopCount ps target mult else 1)
    else containsLoopCount ps target mult

/-- `MessageContainsHook.call` (the `_only_texts` gate, the inherited
`_after_init`/`_prepare` case folding, and `_call`): returns the number
of handler invocations and the Python return value `len(res) > 0`. -/
def messageContainsCall (string0 : String) (ignoreCase mult : Bool)
    (text : Option String) : Nat × Option Bool :=
  match text with
  | none => (0, none)
  | some t0 =>
    let target := if ignoreCase then pyLower string0 else string0
    let t := if ignoreCase then pyLower t0 else t0
    let n := containsLoopCount (pySplitSpace t) target mult
    (n, some (decide (0 < n)))

/-- Python whitespace characters (the ASCII ones `str.split()` uses). -/
def isPyWhitespace (c : Char) : Bool :=
  c = ' ' || c = '\t' || c = '\n' || c = '\r' || c = Char.ofNat 11 || c = Char.ofNat 12

/-- Tokenization of text on whitespace, as the spec describes it
(Python `str.split()` with no argument: maximal nonempty runs of
non-whitespace characters). Stated from the spec's words, for
comparison with the single-space split the code performs. -/
def whitespaceTokens (s : String) : List String :=
  (splitByAux isPyWhitespace s.data []).filter (fun p => p ≠ "")

/-- The handler invocation count claim C5 predicts: one per occurrence
of the token among the whitespace tokens when `multiple` is set, at
most one otherwise. Stated from the claim's words. -/
def claimC5Invocations (token text : String) (mult : Bool) : Nat :=
  if mult then (whitespaceTokens text).count token
  else min ((whitespaceTokens text).count token) 1

/-! ## `CommandHook._after_init` (`hooks.py`) -/

/-- The state `CommandHook._after_init` leaves on the hook: the source
pattern of `_regex` (whose matching semantics is `cmdRegexMatch`),
`_name`, `_hidden` and `_order`. -/
structure CommandHookConfig where
  regexPattern : String
  name : String
  hidden : Bool
  order : Int
  deriving DecidableEq

/-- `CommandHook._after_init`: raise `ValueError` unless
`re.match(r'^[a-zA-Z0-9_]+$', name)` succeeds, then compile
`r'^\/' + name + r'(@[a-zA-Z0-9_]+)?( .*)?$'` and store the options
(`hidden` defaults to `False`, `order` to `0`). -/
def commandHookAfterInit (name : String) (hidden : Option Bool)
    (order : Option Int) : Except String CommandHookConfig :=
  if pyFullMatchWord name then
    .ok ⟨"^\\/" ++ name ++ "(@[a-zA-Z0-9_]+)?( .*)?$", name,
      hidden.getD false, order.getD 0⟩
  else
    .error ("Invalid command name: " ++ name)

/-! ## `Bot.command` registration (`bot.py`) -/

/-- `Bot.command`: registering a command. `reg` is `self._commands` as
an association list in insertion order; handlers are abstract values of
type `α` with an abstract `callable` test. A `NameError` is raised if
the name is already registered; otherwise a non-callable handler raises
a `ValueError`; otherwise the dict assignment appends the new entry. -/
def botCommand {α : Type} (callable : α → Bool) (reg : List (String × α))
    (name : String) (func : α) : Except String (List (String × α)) :=
  if (reg.lookup name).isSome then
    .error ("The command /" ++ name ++ " already exists")
  else if !callable func then
    .error "A command processor must be callable"
  else
    .ok (reg ++ [(name, func)])

/-- The registry after a registration attempt: unchanged when the
attempt raised. -/
def registryAfter {α : Type} (reg : List (String × α))
    (r : Except String (List (String × α))) : List (String × α) :=
  match r with
  | .ok reg' => reg'
  | .error _ => reg

/-! ## Built-in help command (`bot.py`) -/

/-- Python `s.strip()` (default whitespace stripping, ASCII range). -/
def pyStrip (s : String) : String :=
  String.mk (((s.data.dropWhile isPyWhitespace).reverse.dropWhile
    isPyWhitespace).reverse)

/-- Python `s.split("\n", 1)[0]`. -/
def firstLine (s : String) : String :=
  String.mk (s.data.takeWhile (fun c => c ≠ '\n'))

/-- Python string comparison: lexicographic by code point. -/
def charListLe : List Char → List Char → Bool
  | [], _ => true
  | _ :: _, [] => false
  | a :: as, b :: bs => if a < b then true else if a = b then charListLe as bs else false

def strLeBool (a b : String) : Bool := charListLe a.data b.data

def insertSorted (x : String) : List String → List String
  | [] => [x]
  | y :: ys => if strLeBool x y then x :: y :: ys else y :: insertSorted x ys

/-- Python `sorted(keys)` on distinct dict keys (insertion sort; the
keys of a dict are distinct, so any correct ascending sort agrees). -/
def sortStrings (l : List String) : List String := l.foldr insertSorted []

/-- A command's value in the registry: its handler's `__doc__`
(`none` for a handler without a docstring). The handler body itself is
irrelevant to `_default_help_command`. -/
abbrev CmdDoc : Type := Option String

/-- `Bot._default_commands`: `help` and `start` with the exact
docstrings of `_default_help_command` and `_default_start_command`. -/
def defaultCommands : List (String × CmdDoc) :=
  [("help", some ("Show this help message\n        " ++
     "You can also use '/help <command>' to get help about a command.\n        ")),
   ("start", some ("Start using the bot.\n        " ++
     "It shows a greeting message.\n        "))]

/-- Python dict assignment `d[k] = v` on an insertion-ordered
association list: overwrite in place if the key exists, else append. -/
def dictSet {α : Type} (d : List (String × α)) (k : String) (v : α) :
    List (String × α) :=
  if (d.lookup k).isSome then
    d.map (fun p => if p.1 = k then (k, v) else p)
  else d ++ [(k, v)]

/-- Python `d.update(other)` with `other` given in iteration order. -/
def dictUpdate {α : Type} (d : List (String × α)) :
    List (String × α) → List (String × α)
  | [] => d
  | (k, v) :: rest => dictUpdate (dictSet d k v) rest

/-- `Bot._get_commands`: the defaults overlaid with the user-registered
commands (user registrations override defaults). -/
def getCommands (userCmds : List (String × CmdDoc)) : List (String × CmdDoc) :=
  dictUpdate defaultCommands userCmds

/-- `Bot._generic_help_message`. `userCmds` is `self._commands`,
`commands` the merged dict passed in by the caller. -/
def genericHelpMessage (about owner : String)
    (userCmds commands : List (String × CmdDoc)) : List String :=
  (if about ≠ "" then [about, ""] else []) ++
  (if userCmds.length > 0 then
    ["Available commands:"] ++
    ((sortStrings (commands.map Prod.fst)).map (fun nm =>
      let doc := (commands.lookup nm).getD none
      let docstring := match doc with
        | none => "No description available."
        | some d =>
          if d = "" then "No description available."
          else firstLine (pyStrip d)
      "/" ++ nm ++ " - " ++ docstring)) ++
    ["Use /help <command> if you need help about a specific command."]
   else ["No commands available."]) ++
  (if owner ≠ "" then
    [" ", "Please contact " ++ owner ++ " if you have problems with this bot."]
   else [])

/-- `Bot._command_help_message`. `fmtDoc` models `utils.format_docstr`
(`utils` is outside the dispatch core; kept abstract). -/
def commandHelpMessage (owner : String) (fmtDoc : String → String)
    (commands : List (String × CmdDoc)) (command : String) : List String :=
  (match (commands.lookup command).getD none with
   | some d =>
     if d ≠ "" then ["/" ++ command ++ " - " ++ fmtDoc d]
     else ["No help messages for the /" ++ command ++ " command."]
   | none => ["No help messages for the /" ++ command ++ " command."]) ++
  (if owner ≠ "" then
    [" ", "Please contact " ++ owner ++ " if you have problems with this bot"]
   else [])

/-- `Bot._default_help_command`: build the reply lines by argument
count and send them joined with newlines (the returned string is the
text passed to `chat.send`). -/
def defaultHelpCommand (about owner : String)
    (userCmds : List (String × CmdDoc)) (fmtDoc : String → String)
    (args : List String) : String :=
  joinWithNl
    (if args.length > 1 then
      ["Error: the /help command allows up to one argument."]
     else if args.length = 1 then
       (if ((getCommands userCmds).lookup (args.headD "")).isSome then
          commandHelpMessage owner fmtDoc (getCommands userCmds) (args.headD "")
        else
          ["Error: Unknow command: /" ++ args.headD "",
           "Use /help for a list of commands."])
     else genericHelpMessage about owner userCmds (getCommands userCmds))

/-! ## `InlineHook` (`hooks.py`) and the pagination store

The IPC backend serving `inline.get` / `inline.update` / `inline.purge`
lives in the runner, outside the dispatch core sources; its semantics
is modelled from the spec (§4.4/§6): a per-sender mapping to an integer
offset, `get` defaulting to 0 when absent, `update` writing the value,
`purge` deleting the sender's entry. -/

/-- Modelled from the spec: the Pagination Store state, a mapping from
sender identifier to integer offset (association list). -/
abbrev Store : Type := List (Nat × Nat)

/-- Modelled from the spec: `inline.get(sender_id) -> offset`,
default 0 if absent. -/
def storeGet (st : Store) (sender : Nat) : Nat :=
  (List.lookup sender st).getD 0

/-- Modelled from the spec: `inline.update(sender_id, offset)` —
dictionary assignment (overwrite in place, else append). -/
def storeUpdate (st : Store) (sender v : Nat) : Store :=
  if (List.lookup sender st).isSome then
    st.map (fun p => if p.1 = sender then (sender, v) else p)
  else st ++ [(sender, v)]

/-- Modelled from the spec: `inline.purge(sender_id)` — delete the
sender's entry. -/
def storePurge (st : Store) (sender : Nat) : Store :=
  st.filter (fun p => p.1 != sender)

/-- A Python value as it sits in the `answerInlineQuery` argument
dictionary (string / int / bool — the types the code actually puts
there). -/
inductive PyVal (α : Type) where
  | vstr : String → PyVal α
  | vint : Int → PyVal α
  | vbool : Bool → PyVal α
  deriving DecidableEq

/-- Whether a dictionary value is a Python string. -/
def PyVal.isStr {α : Type} : PyVal α → Bool
  | .vstr _ => true
  | _ => false

/-- One observable step of `InlineHook._call`, in order: the optional
purge, the handler call producing the generator, the IPC offset read,
the IPC offset write, and the `answerInlineQuery` API call. -/
inductive InlineEv (α : Type) where
  | purge (sender : Nat)
  | callHandler
  | ipcGet (sender : Nat) (result : Nat)
  | ipcUpdate (sender : Nat) (value : Nat)
  | answerInlineQuery (args : List (String × PyVal α))
  deriving DecidableEq

/-- The materialization loop
`for i in range(offset, offset + paginate): element = next(sliced);
element['id'] = i` over the already-sliced rest of the generator `l`:
stops at `paginate` items or at `StopIteration`, tagging each item with
its absolute index. -/
def matAux {α : Type} : List α → Nat → Nat → List (Nat × α)
  | _, _, 0 => []
  | [], _, _ + 1 => []
  | a :: as, i, n + 1 => (i, a) :: matAux as (i + 1) n

/-- The result items materialized from the handler's sequence `gen`:
`itertools.islice(generator, offset, None)` then the loop above. -/
def inlineMaterialize {α : Type} (gen : List α) (offset paginate : Nat) :
    List (Nat × α) :=
  matAux (gen.drop offset) offset paginate

/-- The `args` dictionary built for `answerInlineQuery`, in key order.
`ser` models `json.dumps` (Python stdlib, kept abstract); note that
`next_offset` is set to the integer `offset + self.paginate`. -/
def inlineArgsDict {α : Type} (qid : String) (cache : Int) (priv : Bool)
    (ser : List (Nat × α) → String) (results : List (Nat × α))
    (nextOffset : Nat) : List (String × PyVal α) :=
  [("inline_query_id", .vstr qid),
   ("cache_time", .vint cache),
   ("is_personal", .vbool priv),
   ("results", .vstr (ser results)),
   ("next_offset", .vint (nextOffset : Int))]

/-- `InlineHook._call` for one inline-query update: `gen` is the
handler's result sequence, `qOffset` the query's reported offset
string, `st` the Pagination Store state. Returns the event trace (in
execution order) and the updated store. -/
def inlineCall {α : Type} (cache : Int) (priv : Bool) (paginate : Nat)
    (ser : List (Nat × α) → String) (gen : List α) (qid : String)
    (sender : Nat) (qOffset : String) (st : Store) :
    List (InlineEv α) × Store :=
  let st1 := if qOffset = "" then storePurge st sender else st
  let ev1 : List (InlineEv α) :=
    if qOffset = "" then [.purge sender] else []
  let offset := storeGet st1 sender
  let st2 := storeUpdate st1 sender (offset + paginate)
  let results := inlineMaterialize gen offset paginate
  (ev1 ++ [.callHandler, .ipcGet sender offset,
    .ipcUpdate sender (offset + paginate),
    .answerInlineQuery (inlineArgsDict qid cache priv ser results
      (offset + paginate))], st2)

/-- The argument dictionary of the (single) `answerInlineQuery` call in
a trace. -/
def answeredArgs {α : Type} (tr : List (InlineEv α)) :
    Option (List (String × PyVal α)) :=
  (tr.filterMap (fun e => match e with
    | .answerInlineQuery a => some a
    | _ => none)).head?

/-! ## `Invoice` builder (`payments.py`) -/

/-- The `Invoice` builder object. `_items` holds the
`{"label": ..., "amount": ...}` dictionaries appended by
`add_product`; the remaining fields are the attributes `__init__`
initializes and the setters overwrite. -/
structure Invoice where
  _items : List (String × Int)
  provider_token : Option String
  title : Option String
  description : Option String
  payload : Option String
  start_parameter : Option String
  currency : Option String
  photo_url : Option String
  photo_size : Option Int
  photo_width : Option Int
  photo_height : Option Int
  need_name : Bool
  need_phone_number : Bool
  need_email : Bool
  need_shipping_address : Bool
  is_flexible : Bool
  deriving DecidableEq

/-- `Invoice.__init__`: empty item list, `None`/`False` everywhere. -/
def Invoice.init : Invoice :=
  ⟨[], none, none, none, none, none, none, none, none, none, none,
   false, false, false, false, false⟩

def Invoice.provider (inv : Invoice) (pt : String) : Invoice :=
  { inv with provider_token := some pt }

def Invoice.header (inv : Invoice) (t d p sp c : String) : Invoice :=
  { inv with
    title := some t
    description := some d
    payload := some p
    start_parameter := some sp
    currency := some c }

def Invoice.photo (inv : Invoice) (url : String)
    (size width height : Option Int) : Invoice :=
  { inv with
    photo_url := some url
    photo_size := size
    photo_width := width
    photo_height := height }

def Invoice.request_for (inv : Invoice) (nm pn em : Bool) : Invoice :=
  { inv with
    need_name := nm
    need_phone_number := pn
    need_email := em }

def Invoice.shipping (inv : Invoice) (request_address flexible : Bool) : Invoice :=
  { inv with
    need_shipping_address := request_address
    is_flexible := flexible }

/-- `Invoice.add_product(label, price)`:
`self._items.append({"label": label, "amount": price})`. -/
def Invoice.add_product (inv : Invoice) (label : String) (price : Int) : Invoice :=
  { inv with _items := inv._items ++ [(label, price)] }

/-- The `total_amount` property:
`sum(item['amount'] for item in self._items)`. -/
def Invoice.total_amount (inv : Invoice) : Int :=
  (inv._items.map Prod.snd).sum

/-- Add a whole list of products in order. -/
def Invoice.addProducts (inv : Invoice) (l : List (String × Int)) : Invoice :=
  l.foldl (fun i p => i.add_product p.1 p.2) inv

theorem chainInvokedAux_eq_range' {U : Type} (hooks : List (HookFn U)) (u : U) :
    ∀ i, chainInvokedAux i hooks u = List.range' i (chainStop hooks u) := by
  induction hooks with
  | nil => intro i; rfl
  | cons h rest ih =>
    intro i
    by_cases hc : h u = some true
    · simp [chainInvokedAux, chainStop, hc, List.range']
    · simp only [chainInvokedAux, chainStop, hc, if_false]
      rw [ih (i + 1), Nat.add_comm 1 (chainStop rest u), List.range']

theorem chainInvoked_eq_range {U : Type} (hooks : List (HookFn U)) (u : U) :
    chainInvoked hooks u = List.range (chainStop hooks u) := by
  rw [chainInvoked, chainInvokedAux_eq_range', List.range_eq_range']

/-- C1: hook chains are walked in strict registration order (the invoked
indices are `0, 1, 2, ...`, an initial segment of the chain), the first
hook whose call returns `True` (Claimed) stops the chain, and in
particular for a chain `[A, B, C]` where `B` claims the update, `C`
(index 2) is never invoked. -/
theorem chain_first_claimed_stops {U : Type} (A B C : HookFn U) (u : U)
    (hB : B u = some true) :
    2 ∉ chainInvoked [A, B, C] u ∧
    ∀ (hooks : List (HookFn U)) (v : U),
      chainInvoked hooks v = List.range (chainStop hooks v) := by
  refine ⟨?_, fun hooks v => chainInvoked_eq_range hooks v⟩
  rw [chainInvoked_eq_range]
  have hstop : chainStop [A, B, C] u ≤ 2 := by
    by_cases hA : A u = some true
    · simp [chainStop, hA]
    · simp [chainStop, hA, hB]
  intro hmem
  exact absurd (List.mem_range.mp hmem) (Nat.not_lt.mpr hstop)

/-- Witness for C1 at a concrete chain: `A` returns `None`, `B` returns
`True`, `C` returns `False`. -/
theorem chain_first_claimed_stops_witness :
    2 ∉ chainInvoked [fun _ => none, fun _ => some true,
      (fun _ => some false : HookFn Nat)] 0 ∧
    ∀ (hooks : List (HookFn Nat)) (v : Nat),
      chainInvoked hooks v = List.range (chainStop hooks v) :=
  chain_first_claimed_stops (fun _ => none) (fun _ => some true)
    (fun _ => some false) 0 rfl

/-- C2: a message `"/foo bar baz"` reaching a bot with a registered
command `foo` invokes the handler exactly once with
`args = ["bar", "baz"]` — both through `CommandHook._call` and through
`Bot._process_commands` — and in general every `CommandHook` handler
invocation receives exactly the normalized text split on runs of
spaces with the leading `/command[@bot]` token discarded. -/
theorem command_foo_bar_baz_args (username : String) :
    commandHookCall "foo" username (some "/foo bar baz") =
      ⟨[["bar", "baz"]], some true⟩ ∧
    processCommands username ["foo"] (some "/foo bar baz") true =
      ([.handlerInvoked "foo" ["bar", "baz"]], some true) ∧
    ∀ (name uname t : String),
      (commandHookCall name uname (some t)).invocations = [] ∨
      (commandHookCall name uname (some t)).invocations =
        [(splitSpaceRuns (normalizeCmdText t)).drop 1] := by
  refine ⟨rfl, rfl, fun name uname t => ?_⟩
  show (commandHookCall name uname (some t)).invocations = _ ∨ _
  rw [commandHookCall]
  cases h : cmdRegexMatch name.data (normalizeCmdText t).data with
  | none => exact Or.inl rfl
  | some g1 =>
    cases g1 with
    | none => exact Or.inr rfl
    | some m =>
      dsimp only
      by_cases hm : String.mk m ≠ "@" ++ uname
      · rw [if_pos hm]
        exact Or.inl rfl
      · rw [if_neg hm]
        exact Or.inr rfl

theorem takeWhile_append_all (p : Char → Bool) (l1 l2 : List Char)
    (h : l1.all p = true) : (l1 ++ l2).takeWhile p = l1 ++ l2.takeWhile p := by
  induction l1 with
  | nil => rfl
  | cons c cs ih =>
    rw [List.all_cons, Bool.and_eq_true] at h
    simp [List.takeWhile, h.1, ih h.2]

theorem cmdNormChar_of_isWordChar (c : Char) (h : isWordChar c = true) :
    cmdNormChar c = c := by
  rw [cmdNormChar]
  by_cases hc : (c = '\n' || c = '\t') = true
  · rcases Bool.or_eq_true _ _ |>.mp hc with h1 | h1 <;>
      rw [decide_eq_true_iff] at h1 <;> subst h1 <;>
      exact absurd h (by decide)
  · rw [if_neg (by simpa using hc)]

theorem map_cmdNormChar_of_all_word (l : List Char)
    (h : l.all isWordChar = true) : l.map cmdNormChar = l := by
  induction l with
  | nil => rfl
  | cons c cs ih =>
    rw [List.all_cons, Bool.and_eq_true] at h
    rw [List.map_cons, cmdNormChar_of_isWordChar c h.1, ih h.2]

theorem string_data_ne {a b : String} (h : a ≠ b) : a.data ≠ b.data := by
  intro hd
  apply h
  cases a
  cases b
  exact congrArg String.mk hd

/-- C6: a command-shaped message whose explicit `@botname` suffix names
a different bot is NotApplicable: `CommandHook._call` performs no
handler invocation and returns `None` (for any command `name`, mention
`other ≠ username`, and argument tail that is empty or starts with a
space), and `Bot._process_commands` neither invokes a handler nor sends
the unknown-command notice, even in a private chat. -/
theorem command_at_other_bot_not_applicable
    (name username other tail : String)
    (hname : name.data.all isWordChar = true)
    (hother : other.data.all isWordChar = true)
    (hone : other ≠ "")
    (hne : other ≠ username)
    (htail : tail = "" ∨ ∃ u, tail = " " ++ u) :
    commandHookCall name username
      (some ("/" ++ name ++ "@" ++ other ++ tail)) = ⟨[], none⟩ ∧
    processCommands "mybot" ["foo"] (some "/foo@otherbot") true = ([], none) := by
  refine ⟨?_, rfl⟩
  have hdata : ("/" ++ name ++ "@" ++ other ++ tail).data
      = ('/' :: name.data) ++ ('@' :: other.data) ++ tail.data := by
    simp
  have hnorm : (normalizeCmdText ("/" ++ name ++ "@" ++ other ++ tail)).data
      = ('/' :: name.data) ++ ('@' :: (other.data ++ tail.data.map cmdNormChar)) := by
    rw [normalizeCmdText, hdata]
    show List.map _ _ = _
    rw [List.map_append, List.map_append]
    show (cmdNormChar '/' :: name.data.map cmdNormChar) ++
      (cmdNormChar '@' :: other.data.map cmdNormChar) ++ _ = _
    rw [map_cmdNormChar_of_all_word name.data hname,
      map_cmdNormChar_of_all_word other.data hother]
    simp [cmdNormChar]
  have htailform : tail.data.map cmdNormChar = [] ∨
      ∃ r, tail.data.map cmdNormChar = ' ' :: r := by
    rcases htail with h | ⟨u, h⟩
    · subst h; exact Or.inl rfl
    · subst h
      refine Or.inr ⟨u.data.map cmdNormChar, ?_⟩
      have : (" " ++ u).data = ' ' :: u.data := by simp
      rw [this, List.map_cons]
      rfl
  have hrun : (other.data ++ tail.data.map cmdNormChar).takeWhile isWordChar
      = other.data := by
    rw [takeWhile_append_all _ _ _ hother]
    rcases htailform with h | ⟨r, h⟩ <;> rw [h]
    · simp
    · simp [List.takeWhile, isWordChar]
  have hoe : other.data.isEmpty = false := by
    cases hd : other.data with
    | nil => exact absurd (by exact congrArg String.mk hd) hone
    | cons c cs => rfl
  have hlen : name.data.length + 1 = ('/' :: name.data).length := by simp
  have hmatch : cmdRegexMatch name.data
      (normalizeCmdText ("/" ++ name ++ "@" ++ other ++ tail)).data
      = some (some ('@' :: other.data)) := by
    rw [cmdRegexMatch, hnorm]
    rw [if_pos (by rw [hlen, List.take_left])]
    have hdrop : (('/' :: name.data) ++
        ('@' :: (other.data ++ tail.data.map cmdNormChar))).drop (name.data.length + 1)
        = '@' :: (other.data ++ tail.data.map cmdNormChar) := by
      rw [hlen, List.drop_left]
    rw [hdrop]
    dsimp only
    rw [if_pos rfl, hrun]
    rw [if_neg (by rw [hoe]; exact Bool.false_ne_true)]
    have hdrop2 : (other.data ++ tail.data.map cmdNormChar).drop other.data.length
        = tail.data.map cmdNormChar := List.drop_left _ _
    rw [hdrop2]
    rcases htailform with h | ⟨r, h⟩ <;> rw [h]
    dsimp only
    rw [if_pos rfl]
  rw [commandHookCall]
  rw [hmatch]
  dsimp only
  rw [if_pos]
  intro heq
  have hd2 : ('@' :: other.data) = '@' :: username.data := by
    have h3 : (String.mk ('@' :: other.data)).data = ("@" ++ username).data := by
      rw [heq]
    simpa using h3
  injection hd2 with _ h4
  exact string_data_ne hne h4

/-- Witness for C6 at `name = "foo"`, `username = "mybot"`,
`other = "otherbot"`, `tail = " x"`. -/
theorem command_at_other_bot_not_applicable_witness :
    commandHookCall "foo" "mybot"
      (some ("/" ++ "foo" ++ "@" ++ "otherbot" ++ " x")) = ⟨[], none⟩ ∧
    processCommands "mybot" ["foo"] (some "/foo@otherbot") true = ([], none) :=
  command_at_other_bot_not_applicable "foo" "mybot" "otherbot" " x"
    (by decide) (by decide) (by decide) (by decide) (Or.inr ⟨"x", rfl⟩)

/-- C5 counterexample: on the text `"x\tx"` (two occurrences of the
token `"x"` separated by a tab) the claim's whitespace tokenization
predicts one invocation with Claimed, but `MessageContainsHook._call`
splits on single spaces only, invokes the handler zero times and
returns `False`. -/
theorem messageContains_tab_counterexample :
    claimC5Invocations "x" "x\tx" false = 1 ∧
    messageContainsCall "x" false false (some "x\tx") = (0, some false) := by
  decide

theorem containsLoopCount_eq (pieces : List String) (target : String) :
    containsLoopCount pieces target true = pieces.count target ∧
    containsLoopCount pieces target false = min (pieces.count target) 1 := by
  induction pieces with
  | nil => exact ⟨rfl, rfl⟩
  | cons p ps ih =>
    by_cases hp : p = target
    · refine ⟨?_, ?_⟩
      · simp only [containsLoopCount, if_pos hp, if_pos trivial, List.count_cons]
        simp [hp, ih.1]
        omega
      · simp only [containsLoopCount, if_pos hp, List.count_cons]
        simp [hp]
    · refine ⟨?_, ?_⟩
      · simp only [containsLoopCount, if_neg hp, List.count_cons]
        simp [hp, ih.1]
      · simp only [containsLoopCount, if_neg hp, List.count_cons]
        simp [hp, ih.2]

/-- C5 (amended): `MessageContainsHook._call` tokenizes the (optionally
case-folded) text on single space characters, not on general
whitespace. With `multiple = true` the handler is invoked once per
occurrence of the (optionally case-folded) token among those pieces;
with `multiple = false` it is invoked exactly once as soon as there is
at least one occurrence (even if there are two or more); the hook
returns `True` iff at least one invocation occurred. -/
theorem messageContains_space_tokens (token text : String) (ic mult : Bool) :
    (messageContainsCall token ic true (some text)).1 =
      (pySplitSpace (if ic then pyLower text else text)).count
        (if ic then pyLower token else token) ∧
    (messageContainsCall token ic false (some text)).1 =
      min ((pySplitSpace (if ic then pyLower text else text)).count
        (if ic then pyLower token else token)) 1 ∧
    (messageContainsCall token ic mult (some text)).2 =
      some (decide (0 < (messageContainsCall token ic mult (some text)).1)) ∧
    messageContainsCall "hi" false false (some "hi hi") = (1, some true) ∧
    messageContainsCall "hi" false true (some "hi hi") = (2, some true) := by
  refine ⟨?_, ?_, rfl, by decide, by decide⟩
  · exact (containsLoopCount_eq _ _).1
  · exact (containsLoopCount_eq _ _).2

/-- C8 counterexample: the name `"a\n"` does not match
`^[a-zA-Z0-9_]+$` read as a pure full-string pattern (it contains a
newline), yet construction succeeds, because Python's `$` also matches
just before a trailing newline — `re.match(r'^[a-zA-Z0-9_]+$', "a\n")`
is a match, so no `ValueError` is raised. -/
theorem commandHook_name_newline_counterexample :
    specFullMatchWord "a\n" = false ∧
    (commandHookAfterInit "a\n" none none).isOk = true := by
  decide

theorem mem_of_getLast?_eq {l : List Char} {c : Char}
    (hl : l.getLast? = some c) : c ∈ l := by
  have hmem : c ∈ l.getLast? := by rw [Option.mem_def]; exact hl
  obtain ⟨hne, hEq⟩ := List.mem_getLast?_eq_getLast hmem
  rw [hEq]
  exact List.getLast_mem hne

theorem stripFinalNewline_of_all_word (l : List Char)
    (h : l.all isWordChar = true) : stripFinalNewline l = l := by
  rw [stripFinalNewline, if_neg]
  intro he
  have hc : isWordChar '\n' = true :=
    List.all_eq_true.mp h '\n' (mem_of_getLast?_eq he)
  exact absurd hc (by decide)

/-- C8 (amended): construction succeeds exactly when the name matches
`^[a-zA-Z0-9_]+$` under Python's `$` semantics, which accept the pure
full-string matches of `[a-zA-Z0-9_]+` and additionally names that are
such a match followed by one trailing newline. Names with spaces,
dashes or an empty name fail with the invalid-name error; every purely
word-character name succeeds and stores the anchored source pattern
`^\/name(@[a-zA-Z0-9_]+)?( .*)?$`. -/
theorem commandHook_name_validation :
    (∀ (name : String) (h : Option Bool) (o : Option Int),
      (commandHookAfterInit name h o).isOk = pyFullMatchWord name) ∧
    (∀ s : String, pyFullMatchWord s =
      (specFullMatchWord s ||
        (decide (s.data.getLast? = some '\n') &&
          specFullMatchWord (String.mk s.data.dropLast)))) ∧
    commandHookAfterInit "" none none = .error "Invalid command name: " ∧
    commandHookAfterInit "a b" none none = .error "Invalid command name: a b" ∧
    commandHookAfterInit "a-b" none none = .error "Invalid command name: a-b" ∧
    (∀ (name : String) (h : Option Bool) (o : Option Int),
      specFullMatchWord name = true →
      commandHookAfterInit name h o =
        .ok ⟨"^\\/" ++ name ++ "(@[a-zA-Z0-9_]+)?( .*)?$", name,
          h.getD false, o.getD 0⟩) := by
  have hiff : ∀ s : String, pyFullMatchWord s =
      (specFullMatchWord s ||
        (decide (s.data.getLast? = some '\n') &&
          specFullMatchWord (String.mk s.data.dropLast))) := by
    intro s
    by_cases hl : s.data.getLast? = some '\n'
    · have hstrip : stripFinalNewline s.data = s.data.dropLast := by
        rw [stripFinalNewline, if_pos hl]
      have hspec : specFullMatchWord s = false := by
        have hmem : ('\n' : Char) ∈ s.data := mem_of_getLast?_eq hl
        rw [specFullMatchWord]
        have hall : s.data.all isWordChar = false := by
          rw [List.all_eq_false]
          exact ⟨'\n', hmem, by decide⟩
        rw [hall, Bool.and_false]
      rw [pyFullMatchWord, hstrip, hspec, specFullMatchWord]
      simp [hl]
    · have hstrip : stripFinalNewline s.data = s.data := by
        rw [stripFinalNewline, if_neg hl]
      rw [pyFullMatchWord, hstrip, specFullMatchWord]
      simp [hl]
  refine ⟨?_, hiff, rfl, rfl, rfl, ?_⟩
  · intro name h o
    rw [commandHookAfterInit]
    by_cases hv : pyFullMatchWord name = true
    · rw [if_pos hv, hv]; rfl
    · rw [if_neg hv, Bool.eq_false_iff.mpr hv]
      rfl
  · intro name h o hspec
    have hpy : pyFullMatchWord name = true := by
      rw [specFullMatchWord, Bool.and_eq_true] at hspec
      rw [pyFullMatchWord,
        stripFinalNewline_of_all_word name.data hspec.2]
      rw [hspec.1, hspec.2, Bool.and_true]
    rw [commandHookAfterInit, if_pos hpy]

/-- Witness for C8 at the valid name `"foo"` with explicit options. -/
theorem commandHook_name_validation_witness :
    specFullMatchWord "foo" = true ∧
    commandHookAfterInit "foo" (some true) (some 3) =
      .ok ⟨"^\\/" ++ "foo" ++ "(@[a-zA-Z0-9_]+)?( .*)?$", "foo", true, 3⟩ :=
  ⟨by decide, commandHook_name_validation.2.2.2.2.2 "foo" (some true) (some 3)
    (by decide)⟩

/-- C4: registering a command under a name that is already registered
raises the `NameError` naming conflict, and the registry is unchanged:
the first registration's handler is still the one bound to the name. -/
theorem command_duplicate_rejected {α : Type} (callable : α → Bool)
    (reg : List (String × α)) (name : String) (f₀ g : α)
    (h : reg.lookup name = some f₀) :
    botCommand callable reg name g =
      .error ("The command /" ++ name ++ " already exists") ∧
    registryAfter reg (botCommand callable reg name g) = reg ∧
    (registryAfter reg (botCommand callable reg name g)).lookup name = some f₀ := by
  have hsome : (reg.lookup name).isSome = true := by rw [h]; rfl
  have herr : botCommand callable reg name g =
      .error ("The command /" ++ name ++ " already exists") := by
    rw [botCommand, if_pos hsome]
  refine ⟨herr, ?_, ?_⟩
  · rw [herr]; rfl
  · rw [herr]; exact h

/-- Witness for C4: `foo` registered with handler `0`, then registered
again with handler `1`. -/
theorem command_duplicate_rejected_witness :
    botCommand (fun _ => true) [("foo", (0 : Nat))] "foo" 1 =
      .error ("The command /" ++ "foo" ++ " already exists") ∧
    registryAfter [("foo", (0 : Nat))]
      (botCommand (fun _ => true) [("foo", 0)] "foo" 1) = [("foo", 0)] ∧
    (registryAfter [("foo", (0 : Nat))]
      (botCommand (fun _ => true) [("foo", 0)] "foo" 1)).lookup "foo" = some 0 :=
  command_duplicate_rejected (fun _ => true) [("foo", 0)] "foo" 0 1 rfl

/-- C9: `/help <name>` for a `name` registered neither as a built-in
nor as a user command sends exactly the two lines
`"Error: Unknow command: /<name>"` and
`"Use /help for a list of commands."` joined by a newline. -/
theorem help_unknown_command (about owner : String)
    (userCmds : List (String × CmdDoc)) (fmtDoc : String → String)
    (name : String)
    (h : ((getCommands userCmds).lookup name).isSome = false) :
    defaultHelpCommand about owner userCmds fmtDoc [name] =
      "Error: Unknow command: /" ++ name ++ "\n" ++
        "Use /help for a list of commands." := by
  rw [defaultHelpCommand]
  rw [if_neg (by simp)]
  rw [if_pos (show [name].length = 1 from rfl)]
  rw [if_neg (by rw [List.headD, h]; exact Bool.false_ne_true)]
  rfl

/-- Witness for C9 at `name = "unknown_cmd"` on a bot with no
user-registered commands. -/
theorem help_unknown_command_witness :
    ((getCommands []).lookup "unknown_cmd").isSome = false ∧
    defaultHelpCommand "" "" [] id ["unknown_cmd"] =
      "Error: Unknow command: /" ++ "unknown_cmd" ++ "\n" ++
        "Use /help for a list of commands." :=
  ⟨by decide, help_unknown_command "" "" [] id "unknown_cmd" (by decide)⟩

theorem lookup_storePurge (st : Store) (sender : Nat) :
    List.lookup sender (storePurge st sender) = none := by
  induction st with
  | nil => rfl
  | cons p ps ih =>
    rw [storePurge, List.filter] at *
    by_cases hp : p.1 = sender
    · simp only [hp, bne_self_eq_false]
      exact ih
    · have hbne : (p.1 != sender) = true := by simpa using hp
      rw [hbne]
      rw [List.lookup]
      have : (sender == p.1) = false := by
        simp [Ne.symm hp]
      rw [this]
      exact ih

theorem storeGet_purge (st : Store) (sender : Nat) :
    storeGet (storePurge st sender) sender = 0 := by
  rw [storeGet, lookup_storePurge]
  rfl

theorem lookup_map_overwrite (st : Store) (sender v : Nat)
    (h : (List.lookup sender st).isSome = true) :
    List.lookup sender
      (st.map (fun p => if p.1 = sender then (sender, v) else p)) = some v := by
  induction st with
  | nil => simp [List.lookup] at h
  | cons p ps ih =>
    rw [List.map_cons]
    by_cases hp : p.1 = sender
    · rw [if_pos hp, List.lookup]
      simp
    · rw [if_neg hp, List.lookup]
      have hne : (sender == p.1) = false := by simp [Ne.symm hp]
      rw [hne]
      apply ih
      rw [List.lookup] at h
      rwa [hne] at h

theorem lookup_append_single (st : Store) (sender v : Nat)
    (hn : List.lookup sender st = none) :
    List.lookup sender (st ++ [(sender, v)]) = some v := by
  induction st with
  | nil => simp [List.lookup]
  | cons p ps ih =>
    obtain ⟨k, w⟩ := p
    rw [List.cons_append]
    simp only [List.lookup] at hn ⊢
    cases hb : (sender == k) with
    | true =>
      rw [hb] at hn
      dsimp only at hn
      cases hn
    | false =>
      rw [hb] at hn
      dsimp only at hn ⊢
      exact ih hn

theorem storeGet_update (st : Store) (sender v : Nat) :
    storeGet (storeUpdate st sender v) sender = v := by
  rw [storeGet, storeUpdate]
  by_cases h : (List.lookup sender st).isSome = true
  · rw [if_pos h, lookup_map_overwrite st sender v h]
    rfl
  · rw [if_neg h]
    have hn : List.lookup sender st = none := by
      cases hl : List.lookup sender st with
      | none => rfl
      | some w => rw [hl] at h; exact absurd rfl h
    rw [lookup_append_single st sender v hn]
    rfl

theorem matAux_map_fst {α : Type} (l : List α) :
    ∀ (i n : Nat), (matAux l i n).map Prod.fst = List.range' i (min n l.length) := by
  induction l with
  | nil =>
    intro i n
    cases n <;> simp [matAux]
  | cons a as ih =>
    intro i n
    cases n with
    | zero => simp [matAux]
    | succ m =>
      rw [matAux, List.map_cons, ih (i + 1) m, List.length_cons,
        Nat.succ_min_succ, List.range'_succ]

theorem matAux_mem {α : Type} (l : List α) :
    ∀ (i n : Nat) (p : Nat × α), p ∈ matAux l i n →
      i ≤ p.1 ∧ l[p.1 - i]? = some p.2 := by
  induction l with
  | nil =>
    intro i n p hp
    cases n <;> simp [matAux] at hp
  | cons a as ih =>
    intro i n p hp
    cases n with
    | zero => simp [matAux] at hp
    | succ m =>
      rw [matAux, List.mem_cons] at hp
      rcases hp with hp | hp
      · subst hp
        exact ⟨Nat.le_refl i, by simp⟩
      · obtain ⟨hle, hget⟩ := ih (i + 1) m p hp
        refine ⟨Nat.le_of_succ_le hle, ?_⟩
        have hsub : p.1 - i = (p.1 - (i + 1)) + 1 := by omega
        rw [hsub]
        simpa using hget

theorem inlineMaterialize_map_fst {α : Type} (gen : List α) (offset paginate : Nat) :
    (inlineMaterialize gen offset paginate).map Prod.fst =
      List.range' offset (min paginate (gen.length - offset)) := by
  rw [inlineMaterialize, matAux_map_fst, List.length_drop]

theorem inlineMaterialize_mem {α : Type} (gen : List α) (offset paginate : Nat)
    (p : Nat × α) (hp : p ∈ inlineMaterialize gen offset paginate) :
    gen[p.1]? = some p.2 := by
  rw [inlineMaterialize] at hp
  obtain ⟨hle, hget⟩ := matAux_mem (gen.drop offset) offset paginate p hp
  rw [List.getElem?_drop] at hget
  rwa [Nat.add_sub_cancel' hle] at hget

/-- C3: inline pagination with `paginate = 5`. An empty-offset query
first purges the sender's stored offset, reads back offset 0, writes
offset 5 to the store *before* the `answerInlineQuery` call is issued
(the trace lists the events in execution order), and materializes
items with ids `0..4`; a follow-up query that reads stored offset 5
materializes ids `5..9` and advances the store to 10. In general each
materialized item's id is its absolute index in the handler's sequence,
and the id list is `offset..offset+paginate-1`, truncated if the
sequence is exhausted. -/
theorem inline_paginate_five {α : Type} (cache : Int) (priv : Bool)
    (ser : List (Nat × α) → String) (gen : List α) (qid : String)
    (sender : Nat) (st st' : Store)
    (hlen : 10 ≤ gen.length) (hst' : storeGet st' sender = 5) :
    inlineCall cache priv 5 ser gen qid sender "" st =
      ([.purge sender, .callHandler, .ipcGet sender 0, .ipcUpdate sender 5,
        .answerInlineQuery (inlineArgsDict qid cache priv ser
          (inlineMaterialize gen 0 5) 5)],
       storeUpdate (storePurge st sender) sender 5) ∧
    (inlineMaterialize gen 0 5).map Prod.fst = [0, 1, 2, 3, 4] ∧
    storeGet (storeUpdate (storePurge st sender) sender 5) sender = 5 ∧
    inlineCall cache priv 5 ser gen qid sender "5" st' =
      ([.callHandler, .ipcGet sender 5, .ipcUpdate sender 10,
        .answerInlineQuery (inlineArgsDict qid cache priv ser
          (inlineMaterialize gen 5 5) 10)],
       storeUpdate st' sender 10) ∧
    (inlineMaterialize gen 5 5).map Prod.fst = [5, 6, 7, 8, 9] ∧
    (∀ (off pag : Nat) (p : Nat × α),
      p ∈ inlineMaterialize gen off pag → gen[p.1]? = some p.2) ∧
    (∀ (off pag : Nat), (inlineMaterialize gen off pag).map Prod.fst =
      List.range' off (min pag (gen.length - off))) := by
  have h0 : storeGet (storePurge st sender) sender = 0 :=
    storeGet_purge st sender
  refine ⟨?_, ?_, storeGet_update _ sender 5, ?_, ?_,
    fun off pag p hp => inlineMaterialize_mem gen off pag p hp,
    fun off pag => inlineMaterialize_map_fst gen off pag⟩
  · simp [inlineCall, h0]
  · rw [inlineMaterialize_map_fst]
    have hm : min 5 (gen.length - 0) = 5 := by omega
    rw [hm]
    rfl
  · simp [inlineCall, hst']
  · rw [inlineMaterialize_map_fst]
    have hm : min 5 (gen.length - 5) = 5 := by omega
    rw [hm]
    rfl

/-- Witness for C3 with the 12-element sequence `0, 10, 20, ...` and
the trivial serializer. -/
theorem inline_paginate_five_witness :
    inlineCall 30 true 5 (fun _ => "[]") ((List.range 12).map (· * 10))
        "q" 7 "" [(7, 5)] =
      ([.purge 7, .callHandler, .ipcGet 7 0, .ipcUpdate 7 5,
        .answerInlineQuery (inlineArgsDict "q" 30 true (fun _ => "[]")
          (inlineMaterialize ((List.range 12).map (· * 10)) 0 5) 5)],
       storeUpdate (storePurge [(7, 5)] 7) 7 5) ∧
    (inlineMaterialize ((List.range 12).map (· * 10)) 0 5).map Prod.fst =
      [0, 1, 2, 3, 4] ∧
    storeGet (storeUpdate (storePurge [(7, 5)] 7) 7 5) 7 = 5 ∧
    inlineCall 30 true 5 (fun _ => "[]") ((List.range 12).map (· * 10))
        "q" 7 "5" [(7, 5)] =
      ([.callHandler, .ipcGet 7 5, .ipcUpdate 7 10,
        .answerInlineQuery (inlineArgsDict "q" 30 true (fun _ => "[]")
          (inlineMaterialize ((List.range 12).map (· * 10)) 5 5) 10)],
       storeUpdate [(7, 5)] 7 10) ∧
    (inlineMaterialize ((List.range 12).map (· * 10)) 5 5).map Prod.fst =
      [5, 6, 7, 8, 9] ∧
    (∀ (off pag : Nat) (p : Nat × Nat),
      p ∈ inlineMaterialize ((List.range 12).map (· * 10)) off pag →
        ((List.range 12).map (· * 10))[p.1]? = some p.2) ∧
    (∀ (off pag : Nat),
      (inlineMaterialize ((List.range 12).map (· * 10)) off pag).map Prod.fst =
        List.range' off (min pag (((List.range 12).map (· * 10)).length - off))) :=
  inline_paginate_five 30 true (fun _ => "[]") ((List.range 12).map (· * 10))
    "q" 7 [(7, 5)] [(7, 5)] (by decide) (by decide)

/-- C7 counterexample: in the structure handed to `answerInlineQuery`,
`next_offset` is the Python integer `offset + self.paginate`, not a
string-encoded integer: after a first page with `paginate = 5` the
field holds the int `5`, not the string `"5"`. -/
theorem inline_next_offset_not_string_counterexample :
    (answeredArgs (inlineCall 30 true 5 (fun _ => "[]") (List.range 12)
        "q" 7 "" []).1).map (fun args => List.lookup "next_offset" args) =
      some (some (PyVal.vint 5)) ∧
    (answeredArgs (inlineCall 30 true 5 (fun _ => "[]") (List.range 12)
        "q" 7 "" []).1).map (fun args =>
          (List.lookup "next_offset" args).map PyVal.isStr) =
      some (some false) := by
  decide

/-- C7 (amended): the structure handed to `answerInlineQuery` has
exactly the fields `inline_query_id`, `cache_time`, `is_personal`,
`results` (the serialized materialized items, each carrying its
positional id) and `next_offset`; `next_offset` holds the *integer*
`old offset + paginate` (the platform layer may stringify it, but the
hook produces an int). -/
theorem inline_answer_shape {α : Type} (cache : Int) (priv : Bool)
    (pag : Nat) (ser : List (Nat × α) → String) (gen : List α)
    (qid : String) (sender : Nat) (qOff : String) (st : Store) :
    answeredArgs (inlineCall cache priv pag ser gen qid sender qOff st).1 =
      some (inlineArgsDict qid cache priv ser
        (inlineMaterialize gen
          (storeGet (if qOff = "" then storePurge st sender else st) sender) pag)
        (storeGet (if qOff = "" then storePurge st sender else st) sender + pag)) ∧
    (∀ (results : List (Nat × α)) (noff : Nat),
      (inlineArgsDict qid cache priv ser results noff).map Prod.fst =
        ["inline_query_id", "cache_time", "is_personal", "results",
         "next_offset"] ∧
      List.lookup "results" (inlineArgsDict qid cache priv ser results noff) =
        some (.vstr (ser results)) ∧
      List.lookup "next_offset" (inlineArgsDict qid cache priv ser results noff) =
        some (.vint (noff : Int))) := by
  constructor
  · by_cases hq : qOff = ""
    · subst hq
      simp [inlineCall, answeredArgs]
    · simp [inlineCall, answeredArgs, hq]
  · intro results noff
    refine ⟨rfl, ?_, ?_⟩ <;> rfl

theorem addProducts_items (l : List (String × Int)) :
    ∀ inv : Invoice, (inv.addProducts l)._items = inv._items ++ l := by
  induction l with
  | nil => intro inv; simp [Invoice.addProducts]
  | cons p ps ih =>
    intro inv
    rw [Invoice.addProducts, List.foldl_cons]
    have h2 := ih (inv.add_product p.1 p.2)
    rw [Invoice.addProducts] at h2
    rw [h2, Invoice.add_product]
    simp

/-- C10: `total_amount` is the sum of the amounts passed to
`add_product` — equal for any permutation of the additions, `0` for a
fresh invoice — and the `header`, `photo`, `provider`, `request_for`
and `shipping` setters do not affect it. -/
theorem invoice_total_amount (l l' : List (String × Int)) (hperm : l.Perm l') :
    (Invoice.init.addProducts l).total_amount = (l.map Prod.snd).sum ∧
    (Invoice.init.addProducts l).total_amount =
      (Invoice.init.addProducts l').total_amount ∧
    Invoice.init.total_amount = 0 ∧
    (∀ (inv : Invoice) (t d p sp c : String),
      (inv.header t d p sp c).total_amount = inv.total_amount) ∧
    (∀ (inv : Invoice) (url : String) (size width height : Option Int),
      (inv.photo url size width height).total_amount = inv.total_amount) ∧
    (∀ (inv : Invoice) (pt : String),
      (inv.provider pt).total_amount = inv.total_amount) ∧
    (∀ (inv : Invoice) (nm pn em : Bool),
      (inv.request_for nm pn em).total_amount = inv.total_amount) ∧
    (∀ (inv : Invoice) (ra fl : Bool),
      (inv.shipping ra fl).total_amount = inv.total_amount) := by
  have htot : ∀ m : List (String × Int),
      (Invoice.init.addProducts m).total_amount = (m.map Prod.snd).sum := by
    intro m
    rw [Invoice.total_amount, addProducts_items]
    rfl
  refine ⟨htot l, ?_, rfl, fun _ _ _ _ _ _ => rfl, fun _ _ _ _ _ => rfl,
    fun _ _ => rfl, fun _ _ _ _ => rfl, fun _ _ _ => rfl⟩
  rw [htot l, htot l']
  exact List.Perm.sum_eq (hperm.map Prod.snd)

/-- Witness for C10 with the products `(a, 3), (b, 4)` added in both
orders. -/
theorem invoice_total_amount_witness :
    (Invoice.init.addProducts [("a", 3), ("b", 4)]).total_amount =
      ([("a", 3), ("b", 4)].map Prod.snd).sum ∧
    (Invoice.init.addProducts [("a", 3), ("b", 4)]).total_amount =
      (Invoice.init.addProducts [("b", 4), ("a", 3)]).total_amount ∧
    Invoice.init.total_amount = 0 ∧
    (∀ (inv : Invoice) (t d p sp c : String),
      (inv.header t d p sp c).total_amount = inv.total_amount) ∧
    (∀ (inv : Invoice) (url : String) (size width height : Option Int),
      (inv.photo url size width height).total_amount = inv.total_amount) ∧
    (∀ (inv : Invoice) (pt : String),
      (inv.provider pt).total_amount = inv.total_amount) ∧
    (∀ (inv : Invoice) (nm pn em : Bool),
      (inv.request_for nm pn em).total_amount = inv.total_amount) ∧
    (∀ (inv : Invoice) (ra fl : Bool),
      (inv.shipping ra fl).total_amount = inv.total_amount) :=
  invoice_total_amount [("a", 3), ("b", 4)] [("b", 4), ("a", 3)]
    (List.Perm.swap ("b", 4) ("a", 3) [])

end Botogram
